import Mathlib

/-!
Shallow embedding of the leafstore library (src/src/model.js, which bundles
LeafstoreModel, LeafstoreDocument and LeafstoreSchema, plus src/src/leafstore.js).

JavaScript runtime values are modelled by `Value`.  Validator closures produced
by `LeafstoreSchema.#validators` are first-class data (`JsFun`), carrying the
captured option value and field name exactly as the closures capture them.

Modelling conventions, stated once:
* Objects are association lists preserving insertion order (JS own-enumerable
  string-key order for non-index keys).
* JS numbers are modelled as `Int`; no claim depends on floats or NaN.
* `===` on two distinct object/array references is `false` in JS; `jsEq`
  returns `false` on all non-primitive pairs, which coincides with JS except
  when the very same reference occurs on both sides (not expressible here and
  not exercised by any claim).
* Relational operators (`<`, `>`, `<=`, `>=`) are modelled on number/number and
  string/string pairs; JS's ToPrimitive/ToNumber coercions for mixed operand
  types are outside the modelled fragment (no claim exercises them).
* The `$regex` operator's `b.test(a)` is abstracted as an explicit function
  parameter `rt` threaded through the query engine; no claim depends on
  regular-expression semantics.
* Asynchronous store completion is modelled by evaluating each operation at
  its promise-settlement point; where the code races a synchronous `resolve`
  against a store callback, the model returns the value of the first
  settlement, as JS promises do.
-/

namespace Leafstore

mutual

inductive Value where
  | vUndef : Value
  | vNull : Value
  | vBool (b : Bool) : Value
  | vNum (n : Int) : Value
  | vStr (s : String) : Value
  | vArr (elems : List Value) : Value
  | vObj (fields : List (String × Value)) : Value
  | vFun (f : JsFun) : Value

/-- The five validator closures produced by `LeafstoreSchema.#validators`.
Each captures the raw option value it destructured from the field descriptor
and the field `name`, exactly as the JS closures do. -/
inductive JsFun where
  | requiredV (req name : Value) : JsFun
  | minLengthV (opt name : Value) : JsFun
  | maxLengthV (opt name : Value) : JsFun
  | minValueV (opt name : Value) : JsFun
  | maxValueV (opt name : Value) : JsFun

end

open Value

/-- JS falsiness: `undefined`, `null`, `false`, `0`, `""` (and `NaN`, absent
from the model) are falsy. -/
def jsFalsy : Value → Bool
  | vUndef => true
  | vNull => true
  | vBool b => !b
  | vNum n => n == 0
  | vStr s => s == ""
  | _ => false

def jsTruthy (v : Value) : Bool := !jsFalsy v

/-- JS strict equality `===` restricted to the modelled fragment: exact on
primitives; `false` on object/array/function pairs (distinct references). -/
def jsEq : Value → Value → Bool
  | vUndef, vUndef => true
  | vNull, vNull => true
  | vBool a, vBool b => a == b
  | vNum a, vNum b => a == b
  | vStr a, vStr b => a == b
  | _, _ => false

/-- JS `a < b` on number/number and string/string pairs; other pairs are
outside the modelled fragment and yield `false` (the NaN-comparison result). -/
def ltVal : Value → Value → Bool
  | vNum a, vNum b => a < b
  | vStr a, vStr b => a < b
  | _, _ => false

def gtVal (a b : Value) : Bool := ltVal b a

def leVal : Value → Value → Bool
  | vNum a, vNum b => a ≤ b
  | vStr a, vStr b => a ≤ b
  | _, _ => false

def geVal (a b : Value) : Bool := leVal b a

/-- Substring test used for `String.prototype.includes`. -/
def strIncludes (s sub : String) : Bool :=
  (List.range (s.length + 1)).any fun i => (s.drop i).startsWith sub

/-- JS `b.includes(a)` for the `$in` operand: array membership by
SameValueZero (which agrees with `jsEq` on the modelled values); string
operands test substring containment; other operand types raise a TypeError in
JS and are modelled as no match (not exercised by any claim). -/
def inVal (a b : Value) : Bool :=
  match b with
  | vArr l => l.any fun x => jsEq x a
  | vStr s =>
    match a with
    | vStr sub => strIncludes s sub
    | _ => false
  | _ => false

/-- JS `typeof v === "object"` (true for objects, arrays and `null`). -/
def isObjectType : Value → Bool
  | vNull => true
  | vArr _ => true
  | vObj _ => true
  | _ => false

/-- JS `typeof v === "string"`. -/
def isStringType : Value → Bool
  | vStr _ => true
  | _ => false

/-- JS `typeof v === "number"`. -/
def isNumberType : Value → Bool
  | vNum _ => true
  | _ => false

/-- JS `Array.isArray`. -/
def isArrayV : Value → Bool
  | vArr _ => true
  | _ => false

mutual

/-- JS ToString for template literals, on the modelled fragment. -/
def jsToString : Value → String
  | vUndef => "undefined"
  | vNull => "null"
  | vBool b => if b then "true" else "false"
  | vNum n => toString n
  | vStr s => s
  | vArr l => String.intercalate "," (jsToStringElems l)
  | vObj _ => "[object Object]"
  | vFun _ => "function"

/-- Array elements stringify with `null`/`undefined` as the empty string. -/
def jsToStringElems : List Value → List String
  | [] => []
  | vUndef :: xs => "" :: jsToStringElems xs
  | vNull :: xs => "" :: jsToStringElems xs
  | x :: xs => jsToString x :: jsToStringElems xs

end

/-- First binding of a key in an association list (JS objects cannot hold
duplicate keys; all objects built by this model go through `setField`). -/
def lookupField : List (String × Value) → String → Option Value
  | [], _ => none
  | (k, v) :: rest, key => if k == key then some v else lookupField rest key

/-- Property write on an object's field list: overwrite the first binding in
place, or append a new one (JS property-creation order). -/
def setField : List (String × Value) → String → Value → List (String × Value)
  | [], key, x => [(key, x)]
  | (k, v) :: rest, key, x =>
    if k == key then (k, x) :: rest else (k, v) :: setField rest key x

/-- Own enumerable string-keyed entries as `for...in` visits them:
object fields in insertion order; array and string index properties.
Primitives other than strings enumerate nothing. -/
def jsOwnEnumerableEntries : Value → List (String × Value)
  | vObj fs => fs
  | vArr l => (List.range l.length).zip l |>.map fun p => (toString p.1, p.2)
  | vStr s =>
    (List.range s.length).zip s.toList |>.map fun p =>
      (toString p.1, vStr (String.mk [p.2]))
  | _ => []

def jsOwnKeys (v : Value) : List String :=
  (jsOwnEnumerableEntries v).map Prod.fst

/-- Array/string exotic property lookup used by plain member access. -/
def indexProp (len : Nat) (get : Nat → Value) (k : String) : Value :=
  if k == "length" then vNum len
  else
    match k.toNat? with
    | some i => if i < len then get i else vUndef
    | none => vUndef

/-- JS member access `v[k]`: TypeError on `null`/`undefined`; `undefined` for
absent properties; `length`/index properties on arrays and strings. -/
def getMember : Value → String → Except String Value
  | vUndef, _ => .error "TypeError: cannot read properties of undefined"
  | vNull, _ => .error "TypeError: cannot read properties of null"
  | vObj fs, k => .ok ((lookupField fs k).getD vUndef)
  | vArr l, k => .ok (indexProp l.length (fun i => l.getD i vUndef) k)
  | vStr s, k =>
    .ok (indexProp s.length (fun i => vStr (String.mk [s.toList.getD i ' '])) k)
  | _, _ => .ok vUndef

/-- Optional-chained access `v?.[k]` / `v?.k`: `undefined` instead of a
TypeError on `null`/`undefined`. -/
def optMember (v : Value) (k : String) : Value :=
  match getMember v k with
  | .ok x => x
  | .error _ => vUndef

/-- `value?.length` as used by the length validators. -/
def optLength (v : Value) : Value := optMember v "length"

/-- JS strict-mode assignment `v[k] = x` (the source files are ES modules,
hence strict mode): TypeError on `null`/`undefined` and on primitives;
objects are updated.  Expando properties on arrays are outside the modelled
fragment (no claim reaches them) and are reported as errors. -/
def setMember : Value → String → Value → Except String Value
  | vObj fs, k, x => .ok (vObj (setField fs k x))
  | vArr _, _, _ => .error "unmodelled: expando property assignment on array"
  | vUndef, _, _ => .error "TypeError: cannot set properties of undefined"
  | vNull, _, _ => .error "TypeError: cannot set properties of null"
  | _, _, _ => .error "TypeError: cannot assign to property of primitive"

/-- JS `v.hasOwnProperty(k)` on a non-null receiver. -/
def hasOwnB : Value → String → Bool
  | vObj fs, k => (lookupField fs k).isSome
  | vArr l, k => k == "length" || (match k.toNat? with
      | some i => i < l.length
      | none => false)
  | vStr s, k => k == "length" || (match k.toNat? with
      | some i => i < s.length
      | none => false)
  | _, _ => false

/-- JS `v.hasOwnProperty(k)` with the TypeError on `null`/`undefined`. -/
def hasOwnE : Value → String → Except String Bool
  | vUndef, _ => .error "TypeError: cannot read hasOwnProperty of undefined"
  | vNull, _ => .error "TypeError: cannot read hasOwnProperty of null"
  | v, k => .ok (hasOwnB v k)

/-- Write a mutation made through an object reference back into the parent:
`child' = f(parent[k])` mutating `child'` in place is visible in the parent
exactly when the property exists (an absent property yields `undefined`,
which no walker can mutate without raising first). -/
def writeBack (parent : Value) (k : String) (child : Value) :
    Except String Value :=
  if hasOwnB parent k then setMember parent k child else .ok parent

/-- `List.mapM` specialised to `Except` with equations convenient for
induction. -/
def mapE (f : α → Except String β) : List α → Except String (List β)
  | [] => .ok []
  | x :: xs => do
    let y ← f x
    let ys ← mapE f xs
    .ok (y :: ys)

/-- JS `Array.prototype.filter` with a predicate that can throw. -/
def filterE (p : α → Except String Bool) : List α → Except String (List α)
  | [] => .ok []
  | x :: xs => do
    let b ← p x
    let rest ← filterE p xs
    .ok (if b then x :: rest else rest)

/-- JS `Array.prototype.find` with a predicate that can throw; `undefined`
when nothing matches. -/
def findE (p : Value → Except String Bool) : List Value → Except String Value
  | [] => .ok vUndef
  | x :: xs => do
    let b ← p x
    if b then .ok x else findE p xs

/-- A single-quote character, kept out of string literals. -/
def sq : String := String.mk [Char.ofNat 39]

/-- `v === "tag"` for a string literal tag. -/
def isTag : Value → String → Bool
  | vStr s, t => s == t
  | _, _ => false

/-! ### LeafstoreSchema.#validators — the five validator closures -/

/-- Body of `requiredValidator`: `if (required && !value) throw`; returns
`undefined` (the closure has no return statement). -/
def requiredBody (req name value : Value) : Except String Value :=
  if jsTruthy req && jsFalsy value then
    .error (jsToString name ++ " is required")
  else .ok vUndef

/-- Body of `minLengthValidator`.  In the 2-element (threshold, message) form
the final comparison still uses the raw `minLength` option (the array), as the
source does; with a numeric threshold the comparison is `value?.length <
minLength`. -/
def minLengthBody (opt name value : Value) : Except String Value := do
  let message ←
    match opt with
    | vArr l =>
      let len := l.getD 0 vUndef
      let m := l.getD 1 vUndef
      if !isNumberType len then
        .error ("Invalid minLength value for " ++ jsToString name)
      else if !isStringType m then
        .ok (vStr ("length of " ++ jsToString name ++ " must be at least " ++
          jsToString len))
      else .ok m
    | _ =>
      if !isNumberType opt then
        .error ("Invalid minLength value for " ++ jsToString name)
      else
        .ok (vStr ("length of " ++ jsToString name ++ " must be at least " ++
          jsToString opt))
  if ltVal (optLength value) opt then .error (jsToString message)
  else .ok (vBool true)

/-- Body of `maxLengthValidator` (note the capitalised default message in the
source). -/
def maxLengthBody (opt name value : Value) : Except String Value := do
  let message ←
    match opt with
    | vArr l =>
      let len := l.getD 0 vUndef
      let m := l.getD 1 vUndef
      if !isNumberType len then
        .error ("Invalid maxLength value for " ++ jsToString name)
      else if !isStringType m then
        .ok (vStr ("Length of " ++ jsToString name ++ " must be at most " ++
          jsToString len))
      else .ok m
    | _ =>
      if !isNumberType opt then
        .error ("Invalid maxLength value for " ++ jsToString name)
      else
        .ok (vStr ("Length of " ++ jsToString name ++ " must be at most " ++
          jsToString opt))
  if gtVal (optLength value) opt then .error (jsToString message)
  else .ok (vBool true)

/-- Body of `minValueValidator`.  The tupled branch destructures into a
block-scoped `value` that shadows the argument only inside the branch; the
final comparison `value < minValue` therefore uses the argument against the
raw option. -/
def minValueBody (opt name value : Value) : Except String Value := do
  let message ←
    match opt with
    | vArr l =>
      let thr := l.getD 0 vUndef
      let m := l.getD 1 vUndef
      if !isNumberType thr then
        .error ("Invalid minValue value for " ++ jsToString name)
      else if !isStringType m then
        .ok (vStr (jsToString name ++ " must be at least " ++ jsToString thr))
      else .ok m
    | _ =>
      if !isNumberType opt then
        .error ("Invalid minValue value for " ++ jsToString name)
      else .ok (vStr (jsToString name ++ " must be at least " ++ jsToString opt))
  if ltVal value opt then .error (jsToString message)
  else .ok (vBool true)

/-- Body of `maxValueValidator`; same shadowing remark as `minValueBody`. -/
def maxValueBody (opt name value : Value) : Except String Value := do
  let message ←
    match opt with
    | vArr l =>
      let thr := l.getD 0 vUndef
      let m := l.getD 1 vUndef
      if !isNumberType thr then
        .error ("Invalid maxValue value for " ++ jsToString name)
      else if !isStringType m then
        .ok (vStr (jsToString name ++ " must be at most " ++ jsToString thr))
      else .ok m
    | _ =>
      if !isNumberType opt then
        .error ("Invalid maxValue value for " ++ jsToString name)
      else .ok (vStr (jsToString name ++ " must be at most " ++ jsToString opt))
  if gtVal value opt then .error (jsToString message)
  else .ok (vBool true)

/-- Call a validator closure on a field value. -/
def callValidator : JsFun → Value → Except String Value
  | .requiredV req name, v => requiredBody req name v
  | .minLengthV o name, v => minLengthBody o name v
  | .maxLengthV o name, v => maxLengthBody o name v
  | .minValueV o name, v => minValueBody o name v
  | .maxValueV o name, v => maxValueBody o name v

/-- `LeafstoreSchema.#validators` registration: `required` registers when
truthy; each bound registers only when truthy **and** `typeof === "number"`
(so the 2-element tupled form is never registered). -/
def mkValidators (fieldProps name : Value) : List JsFun :=
  let required := optMember fieldProps "required"
  let minLength := optMember fieldProps "minLength"
  let maxLength := optMember fieldProps "maxLength"
  let minValue := optMember fieldProps "minValue"
  let maxValue := optMember fieldProps "maxValue"
  (if jsTruthy required then [JsFun.requiredV required name] else []) ++
  (if jsTruthy minLength && isNumberType minLength then
    [JsFun.minLengthV minLength name] else []) ++
  (if jsTruthy maxLength && isNumberType maxLength then
    [JsFun.maxLengthV maxLength name] else []) ++
  (if jsTruthy minValue && isNumberType minValue then
    [JsFun.minValueV minValue name] else []) ++
  (if jsTruthy maxValue && isNumberType maxValue then
    [JsFun.maxValueV maxValue name] else [])

/-! ### LeafstoreSchema.#generateSchema -/

/-- The `_key` node added to every root schema. -/
def rootKeyNode : Value :=
  vObj [("_type", vStr "string"), ("_validators", vArr [])]

mutual

/-- `LeafstoreSchema.#generateSchema(object, name)`.  Fuel bounds the
recursion depth (the JS recursion is unbounded on cyclic templates); every
theorem quantifies over or instantiates the fuel. -/
def generateSchema : Nat → Value → Value → Except String Value
  | 0, _, _ => .error "model: recursion fuel exhausted"
  | fuel + 1, object, name =>
    let schema0 := if jsFalsy name then vObj [("_key", rootKeyNode)] else vObj []
    genFields fuel object name schema0 (jsOwnEnumerableEntries object)

/-- The `for (let key in object)` loop of `#generateSchema`.  A `type` key
replaces the accumulated schema with a typed node (later keys keep attaching
to it); a string yields a bare leaf; an array wraps the compiled first
element; any other object recurses; remaining value types are skipped. -/
def genFields : Nat → Value → Value → Value → List (String × Value) →
    Except String Value
  | _, _, _, schema, [] => .ok schema
  | 0, _, _, _, _ :: _ => .error "model: recursion fuel exhausted"
  | fuel + 1, object, name, schema, (key, fieldProps) :: rest =>
    if key == "type" then
      let validators := mkValidators object name
      let isUnique := optMember object "unique"
      let schema := vObj [("_type", fieldProps),
        ("_validators", vArr (validators.map vFun)), ("_unique", isUnique)]
      genFields fuel object name schema rest
    else if isStringType fieldProps then do
      let schema ← setMember schema key
        (vObj [("_type", fieldProps), ("_validators", vArr [])])
      genFields fuel object name schema rest
    else if isArrayV fieldProps then do
      let elemTpl := match fieldProps with
        | vArr l => l.getD 0 vUndef
        | _ => vUndef
      let sub ← generateSchema fuel elemTpl (vStr key)
      let schema ← setMember schema key
        (vObj [("_type", vStr "array"), ("_schema", sub)])
      genFields fuel object name schema rest
    else if isObjectType fieldProps then do
      let sub ← generateSchema fuel fieldProps (vStr key)
      let schema ← setMember schema key sub
      genFields fuel object name schema rest
    else
      genFields fuel object name schema rest

end

/-! ### LeafstoreSchema.validate / #validateObject

The walker mutates its input in place (`object[key] = []` for absent/falsy
array fields); the model threads the mutated object through and returns it. -/

/-- The array-default statement `if (!object[key]) object[key] = [];`
shared by `#validateObject` and `#cast`. -/
def defaultIfFalsy (object : Value) (key : String) (cur : Value) :
    Except String Value :=
  if jsFalsy cur then setMember object key (vArr []) else .ok object

/-- `validator(object[key])` for one element of a `_validators` array. -/
def applyValidatorValue : Value → Value → Except String Value
  | vFun f, arg => callValidator f arg
  | _, _ => .error "TypeError: validator is not a function"

mutual

/-- `LeafstoreSchema.#validateObject(object, schema)`; returns the mutated
`object`. -/
def validateObject : Nat → Value → Value → Except String Value
  | 0, _, _ => .error "model: recursion fuel exhausted"
  | fuel + 1, object, schema =>
    validateFields fuel object (jsOwnEnumerableEntries schema)

/-- The `for (let key in schema)` loop of `#validateObject`: array-typed
nodes default an absent/falsy field to `[]` and recurse per element;
`_type === "object"` nodes recurse on the child; everything else runs the
node's `_validators` (when it is an array; optional chaining skips
`null`/`undefined`). -/
def validateFields : Nat → Value → List (String × Value) → Except String Value
  | _, object, [] => .ok object
  | 0, _, _ :: _ => .error "model: recursion fuel exhausted"
  | fuel + 1, object, (key, fieldProps) :: rest => do
    let t ← getMember fieldProps "_type"
    if isTag t "array" then do
      let cur ← getMember object key
      let object ← defaultIfFalsy object key cur
      let cur ← getMember object key
      match cur with
      | vArr items => do
        let es ← getMember fieldProps "_schema"
        let items2 ← mapE (fun it => validateObject fuel it es) items
        let object ← writeBack object key (vArr items2)
        validateFields fuel object rest
      | _ => .error (sq ++ key ++ sq ++ " must be an array")
    else if isTag t "object" then do
      let child ← getMember object key
      let child2 ← validateObject fuel child fieldProps
      let object ← writeBack object key child2
      validateFields fuel object rest
    else do
      let vs ← getMember fieldProps "_validators"
      match vs with
      | vArr fs => do
        let _ ← mapE (fun f => do
          let arg ← getMember object key
          applyValidatorValue f arg) fs
        validateFields fuel object rest
      | vUndef => validateFields fuel object rest
      | vNull => validateFields fuel object rest
      | _ => .error "TypeError: forEach is not a function"

end

/-! ### LeafstoreSchema.cast / #cast -/

mutual

/-- `LeafstoreSchema.#cast(object, schema)`.  Returns the pair (mutated
input, cast result); the result starts from `{}` and receives exactly the
schema's keys. -/
def castObject : Nat → Value → Value → Except String (Value × Value)
  | 0, _, _ => .error "model: recursion fuel exhausted"
  | fuel + 1, object, schema =>
    castFields fuel object (vObj []) (jsOwnEnumerableEntries schema)

/-- The `for (let key in schema)` loop of `#cast`: array-typed nodes default
an absent/falsy field to `[]` and cast per element; `_type === "object"`
nodes recurse; any other node copies `object[key]` through unchanged. -/
def castFields : Nat → Value → Value → List (String × Value) →
    Except String (Value × Value)
  | _, object, result, [] => .ok (object, result)
  | 0, _, _, _ :: _ => .error "model: recursion fuel exhausted"
  | fuel + 1, object, result, (key, fieldProps) :: rest => do
    let t ← getMember fieldProps "_type"
    if isTag t "array" then do
      let cur ← getMember object key
      let object ← defaultIfFalsy object key cur
      let cur ← getMember object key
      match cur with
      | vArr items => do
        let es ← getMember fieldProps "_schema"
        let pairs ← mapE (fun it => castObject fuel it es) items
        let object ← writeBack object key (vArr (pairs.map Prod.fst))
        let result ← setMember result key (vArr (pairs.map Prod.snd))
        castFields fuel object result rest
      | _ => .error (sq ++ key ++ sq ++ " must be an array")
    else if isTag t "object" then do
      let child ← getMember object key
      let p ← castObject fuel child fieldProps
      let object ← writeBack object key p.1
      let result ← setMember result key p.2
      castFields fuel object result rest
    else do
      let v ← getMember object key
      let result ← setMember result key v
      castFields fuel object result rest

end

/-! ### The frame effect of validate/cast (for claim C10) -/

mutual

/-- Modelled from the claim under audit (not from the source): the walk that
performs **only** the in-place array defaulting — for each schema node it
assigns `[]` to an absent/falsy array-typed field and recurses exactly where
the source walkers recurse, leaving every other field of the input
untouched.  Comparing the source walkers' mutated input against this
function settles the frame-effect claim. -/
def defaultArrays : Nat → Value → Value → Except String Value
  | 0, _, _ => .error "model: recursion fuel exhausted"
  | fuel + 1, object, schema =>
    defaultFields fuel object (jsOwnEnumerableEntries schema)

/-- Field loop of `defaultArrays`. -/
def defaultFields : Nat → Value → List (String × Value) → Except String Value
  | _, object, [] => .ok object
  | 0, _, _ :: _ => .error "model: recursion fuel exhausted"
  | fuel + 1, object, (key, fieldProps) :: rest => do
    let t ← getMember fieldProps "_type"
    if isTag t "array" then do
      let cur ← getMember object key
      let object ← defaultIfFalsy object key cur
      let cur ← getMember object key
      match cur with
      | vArr items => do
        let es ← getMember fieldProps "_schema"
        let items2 ← mapE (fun it => defaultArrays fuel it es) items
        let object ← writeBack object key (vArr items2)
        defaultFields fuel object rest
      | _ => .error (sq ++ key ++ sq ++ " must be an array")
    else if isTag t "object" then do
      let child ← getMember object key
      let child2 ← defaultArrays fuel child fieldProps
      let object ← writeBack object key child2
      defaultFields fuel object rest
    else
      defaultFields fuel object rest

end

/-! ### LeafstoreModel.#parseQuery — the query engine

`rt` abstracts the `$regex` entry `(a, b) => b.test(a)`; it receives the
stored value and the pattern operand in that order. -/

/-- The fixed operator table of `#parseQuery`, in source order. -/
def supportedOperators (rt : Value → Value → Bool) :
    List (String × (Value → Value → Bool)) :=
  [("$eq", fun a b => jsEq a b),
   ("$gt", fun a b => gtVal a b),
   ("$gte", fun a b => geVal a b),
   ("$lt", fun a b => ltVal a b),
   ("$lte", fun a b => leVal a b),
   ("$in", fun a b => inVal a b),
   ("$nin", fun a b => !inVal a b),
   ("$ne", fun a b => !jsEq a b),
   ("$regex", fun a b => rt a b)]

/-- The operator names of the table (independent of `rt`). -/
def supportedOpNames : List String :=
  ["$eq", "$gt", "$gte", "$lt", "$lte", "$in", "$nin", "$ne", "$regex"]

def isSupportedOp (op : String) : Bool := supportedOpNames.contains op

/-- The operator loop of `doesMatch`: look each key up in the table, throw
`Operator ... is not supported` when absent, return `false` on the first
failing operator, continue otherwise. -/
def evalOps (rt : Value → Value → Bool) (a : Value) :
    List (String × Value) → Except String Bool
  | [] => .ok true
  | (op, operand) :: rest =>
    match (supportedOperators rt).find? (fun p => p.1 == op) with
    | none => .error ("Operator " ++ sq ++ op ++ sq ++ " is not supported")
    | some p => if p.2 a operand then evalOps rt a rest else .ok false

/-- The field loop of `doesMatch`: a field absent from the record fails the
match; an operator-object (JS `typeof === "object"`) runs `evalOps`; a bare
value requires strict equality. -/
def matchEntries (rt : Value → Value → Bool) (document : Value) :
    List (String × Value) → Except String Bool
  | [] => .ok true
  | (key, qv) :: rest => do
    let owns ← hasOwnE document key
    if !owns then .ok false
    else if isObjectType qv then do
      let a ← getMember document key
      let b ← evalOps rt a (jsOwnEnumerableEntries qv)
      if b then matchEntries rt document rest else .ok false
    else do
      let dv ← getMember document key
      if jsEq dv qv then matchEntries rt document rest else .ok false

/-- `doesMatch(document)` for a fixed query. -/
def doesMatch (rt : Value → Value → Bool) (query document : Value) :
    Except String Bool :=
  matchEntries rt document (jsOwnEnumerableEntries query)

/-- `LeafstoreModel.#filterDeleted`: drop documents whose `?._key` is in the
pending-delete cache (`includes` is SameValueZero, i.e. `jsEq` here). -/
def filterDeleted (deletedKeys : List Value) (docs : List Value) : List Value :=
  docs.filter fun d => !(deletedKeys.any fun k => jsEq k (optMember d "_key"))

/-- `#parseQuery(query, documents)` (returnOne = false).  A falsy query
returns the documents **unfiltered** — the soft-delete filter and the
predicate run only for truthy queries. -/
def parseQueryMany (rt : Value → Value → Bool) (deletedKeys : List Value)
    (query : Value) (docs : List Value) : Except String (List Value) :=
  if jsFalsy query then .ok docs
  else filterE (fun d => doesMatch rt query d) (filterDeleted deletedKeys docs)

/-- `#parseQuery(query, documents, true)` (returnOne = true).  A falsy query
returns the whole documents **array**; otherwise `Array.prototype.find`
yields the first match or `undefined`. -/
def parseQueryOne (rt : Value → Value → Bool) (deletedKeys : List Value)
    (query : Value) (docs : List Value) : Except String Value :=
  if jsFalsy query then .ok (vArr docs)
  else findE (fun d => doesMatch rt query d) (filterDeleted deletedKeys docs)

/-! ### The IndexedDB object store (capability interface of §6)

The store was created with `keyPath: "_key"` (src/src/leafstore.js), so
records carry their key in-line.  Contents are modelled as a list of records;
`getAll()` enumerates it in order (IndexedDB's key order is abstracted; no
claim depends on enumeration order). -/

/-- Valid IndexedDB keys in the modelled fragment (strings and numbers). -/
def validKey : Value → Bool
  | vStr _ => true
  | vNum _ => true
  | _ => false

def recKey (r : Value) : Value := optMember r "_key"

/-- `objectStore.get(key)`. -/
def storeGetE (store : List Value) (key : Value) :
    Except String (Option Value) :=
  if validKey key then .ok (store.find? fun r => jsEq (recKey r) key)
  else .error "DataError"

/-- Replace the record with the same in-line key, or append. -/
def putRecord (store : List Value) (rec : Value) (key : Value) : List Value :=
  match store with
  | [] => [rec]
  | r :: rest =>
    if jsEq (recKey r) key then rec :: rest else r :: putRecord rest rec key

/-- `objectStore.put(record)`: upsert keyed on the record's own `_key`;
DataError when that key is not a valid key. -/
def storePut (store : List Value) (rec : Value) :
    Except String (List Value) :=
  if validKey (recKey rec) then .ok (putRecord store rec (recKey rec))
  else .error "DataError"

/-- `objectStore.add(record)`: like `put` but fails when the key exists. -/
def storeAdd (store : List Value) (rec : Value) :
    Except String (List Value) :=
  if validKey (recKey rec) then
    if store.any (fun r => jsEq (recKey r) (recKey rec)) then
      .error "ConstraintError"
    else .ok (store ++ [rec])
  else .error "DataError"

/-- `objectStore.delete(key)`. -/
def storeDelete (store : List Value) (key : Value) : List Value :=
  store.filter fun r => !(jsEq (recKey r) key)

/-- Records stored under `key` (for stating uniqueness-of-key facts). -/
def countByKey (store : List Value) (key : Value) : Nat :=
  (store.filter fun r => jsEq (recKey r) key).length

/-! ### LeafstoreModel — CRUD orchestration

Each operation is modelled at the point where its promise settles: `.ok` is
the resolved value (paired with the model state visible at that point),
`.error` a rejection or an exception that prevents settlement.  The model
carries the object-store contents and `_deletedKeys`. -/

structure ModelState where
  store : List Value
  deletedKeys : List Value

/-- A `LeafstoreDocument`: the wrapped record and the `_isNew` dirty flag. -/
structure LDocument where
  object : Value
  isNew : Bool

/-- `getAll(idbQuery)` with the primary-key optimisation: only a string query
becomes an IndexedDB key query; anything else scans everything. -/
def getAllForQuery (store : List Value) (query : Value) : List Value :=
  match query with
  | vStr _ => store.filter fun r => jsEq (recKey r) query
  | _ => store

/-- `LeafstoreModel.create(object)`.  The generated `${timestamp}${random}`
key is modelled as the explicit `genKey` input; `#addUniqueKey` assigns it
unconditionally. -/
def createM (fuel : Nat) (schema : Value) (st : ModelState) (object : Value)
    (genKey : String) : Except String (ModelState × LDocument) := do
  let u ← validateObject fuel object schema
  let p ← castObject fuel u schema
  let c ← setMember p.2 "_key" (vStr genKey)
  let store2 ← storeAdd st.store c
  .ok ({ st with store := store2 }, ⟨c, false⟩)

/-- `LeafstoreModel.insertOne(object, key)`.  A fresh key is assigned only
when both the `key` argument and the cast record's own `_key` are falsy; the
store write is a `put` keyed on the record's in-line `_key` (the `key`
argument itself is never passed to the store). -/
def insertOneM (fuel : Nat) (schema : Value) (st : ModelState)
    (object key : Value) (genKey : String) :
    Except String (ModelState × LDocument) := do
  let u ← validateObject fuel object schema
  let p ← castObject fuel u schema
  let c ←
    if jsFalsy key && jsFalsy (optMember p.2 "_key") then
      setMember p.2 "_key" (vStr genKey)
    else pure p.2
  let store2 ← storePut st.store c
  .ok ({ st with store := store2 }, ⟨c, false⟩)

/-- `LeafstoreModel.findByKey(key)`. -/
def findByKeyM (st : ModelState) (key : Value) :
    Except String (Option LDocument) := do
  if jsFalsy key then .error "Key is required"
  else do
    let found ← storeGetE st.store key
    match found with
    | some r =>
      match filterDeleted st.deletedKeys [r] with
      | r2 :: _ => if jsTruthy r2 then .ok (some ⟨r2, false⟩) else .ok none
      | [] => .ok none
    | none => .ok none

/-- `LeafstoreModel.find(query)`. -/
def findM (rt : Value → Value → Bool) (st : ModelState) (query : Value) :
    Except String (List LDocument) := do
  let docs ← parseQueryMany rt st.deletedKeys query (getAllForQuery st.store query)
  .ok (docs.map fun d => ⟨d, false⟩)

/-- `LeafstoreModel.findOne(query)`. -/
def findOneM (rt : Value → Value → Bool) (st : ModelState) (query : Value) :
    Except String (Option LDocument) := do
  let d ← parseQueryOne rt st.deletedKeys query (getAllForQuery st.store query)
  if jsTruthy d then .ok (some ⟨d, false⟩) else .ok none

/-- `LeafstoreModel.count(query)`. -/
def countM (rt : Value → Value → Bool) (st : ModelState) (query : Value) :
    Except String Nat := do
  let docs ← parseQueryMany rt st.deletedKeys query (getAllForQuery st.store query)
  .ok docs.length

/-- `LeafstoreModel.deleteMany(query)` at its resolve point: the matched
keys are computed and handed to `#deleteByKeys`, which only schedules
one `setTimeout(#deleteByKey, 0)` per key — neither the store nor
`_deletedKeys` changes before the promise resolves.  Returns the unchanged
state and the scheduled keys. -/
def deleteManyM (rt : Value → Value → Bool) (st : ModelState) (query : Value) :
    Except String (ModelState × List Value) := do
  let docs ← parseQueryMany rt st.deletedKeys query (getAllForQuery st.store query)
  let keys := docs.map fun d => optMember d "_key"
  .ok (st, keys)

/-- `LeafstoreModel.deleteOne(query)` at its resolve point: `#deleteByKey`
issues the store delete asynchronously and touches `_deletedKeys` only in
its completion callback, so the state is unchanged when the promise
resolves.  Returns the scheduled key, if any. -/
def deleteOneM (rt : Value → Value → Bool) (st : ModelState) (query : Value) :
    Except String (ModelState × Option Value) := do
  let d ← parseQueryOne rt st.deletedKeys query (getAllForQuery st.store query)
  if jsTruthy d then do
    let key ← getMember d "_key"
    .ok (st, if jsFalsy key then none else some key)
  else .ok (st, none)

/-- The asynchronous completion of `#deleteByKey(key)`: the store removes
the record and the callback then filters `key` out of `_deletedKeys` (the
only code that ever writes the cache besides its initialisation). -/
def deleteByKeyComplete (st : ModelState) (key : Value) : ModelState :=
  if jsFalsy key then st
  else
    { store := storeDelete st.store key,
      deletedKeys := st.deletedKeys.filter fun k => !jsEq k key }

/-- JS spread `{...a, ...b}` on the modelled fragment. -/
def spreadMerge (a b : Value) : Value :=
  let ea := jsOwnEnumerableEntries a
  let eb := jsOwnEnumerableEntries b
  vObj ((ea.map fun p => (p.1, (lookupField eb p.1).getD p.2)) ++
    eb.filter fun p => (lookupField ea p.1).isNone)

/-- `LeafstoreModel.findByKeyAndUpdate(key, object)`.  After issuing the
`put` the handler falls through to an unconditional
`resolve(new LeafstoreDocument(object, this, false))`, which settles the
promise **synchronously, before the put completes**; the later
`updateRequest` callbacks are no-ops on the settled promise.  `putFails`
selects the eventual fate of the asynchronous put: on failure the store is
unchanged and the promise is still resolved. -/
def findByKeyAndUpdateM (fuel : Nat) (schema : Value) (st : ModelState)
    (key patch : Value) (putFails : Bool) :
    Except String (ModelState × LDocument) := do
  if jsFalsy key then .error "Key is required"
  else if jsFalsy patch then .error "update object is required"
  else if !isObjectType patch then .error "update object must be an object"
  else do
    let found ← storeGetE st.store key
    let r0 := match found with
      | some r => r
      | none => vUndef
    let r1 := match filterDeleted st.deletedKeys [r0] with
      | r :: _ => r
      | [] => vUndef
    if jsTruthy r1 then do
      let updated := spreadMerge r1 patch
      let u ← validateObject fuel updated schema
      let p ← castObject fuel u schema
      let c ← setMember p.2 "_key" key
      let store2 ← storePut st.store c
      .ok ({ st with store := if putFails then st.store else store2 },
        ⟨patch, false⟩)
    else .error ("No document found with key " ++ sq ++ jsToString key ++ sq)

/-! ### LeafstoreDocument -/

/-- Top-level keys of the compiled schema, as `#addGettersAndSetters`
iterates them. -/
def schemaTopKeys (schema : Value) : List String := jsOwnKeys schema

/-- A paired get/set accessor is defined for a field iff the schema knows it,
the wrapped object owns it, and it is not in `privateFields = ["_key"]`. -/
def docHasSetter (schema : Value) (doc : LDocument) (k : String) : Bool :=
  (schemaTopKeys schema).contains k && hasOwnB doc.object k && !(k == "_key")

/-- A getter is defined for every schema-known owned field (including
`_key`). -/
def docHasGetter (schema : Value) (doc : LDocument) (k : String) : Bool :=
  (schemaTopKeys schema).contains k && hasOwnB doc.object k

/-- The setter body: `this._isNew = true; this._object[key] = value`. -/
def docSetField (doc : LDocument) (k : String) (v : Value) :
    Except String LDocument := do
  let o ← setMember doc.object k v
  .ok ⟨o, true⟩

/-- `LeafstoreDocument.save()`: a clean document returns itself without
touching the store; a dirty one delegates to
`insertOne(this._object, this._object._key)` and, on success, replaces its
record with the returned document's record and clears the flag. -/
def docSave (fuel : Nat) (schema : Value) (st : ModelState)
    (doc : LDocument) (genKey : String) :
    Except String (ModelState × LDocument) :=
  if !doc.isNew then .ok (st, doc)
  else
    (insertOneM fuel schema st doc.object (optMember doc.object "_key")
      genKey).map fun p => (p.1, ⟨p.2.object, false⟩)

/-! ### Concrete instances used by the claim theorems -/

/-- A `$regex` interpreter for concrete runs (no claim depends on it). -/
def rt0 : Value → Value → Bool := fun _ _ => false

/-- A bare leaf node `{_type: t, _validators: []}`. -/
def leafNode (t : String) : Value :=
  vObj [("_type", vStr t), ("_validators", vArr [])]

def tplName : Value := vObj [("name", vStr "string")]

def schemaName : Value := vObj [("_key", rootKeyNode), ("name", leafNode "string")]

def tplNameAge : Value := vObj [("name", vStr "string"), ("age", vStr "number")]

def schemaNameAge : Value :=
  vObj [("_key", rootKeyNode), ("name", leafNode "string"),
    ("age", leafNode "number")]

def r1 : Value := vObj [("_key", vStr "k1"), ("name", vStr "X"), ("age", vNum 20)]

def r2 : Value := vObj [("_key", vStr "k2"), ("name", vStr "X"), ("age", vNum 30)]

/-- Two records named "X", empty pending-delete cache (scenario D state). -/
def st12 : ModelState := ⟨[r1, r2], []⟩

/-- One record whose key sits in the pending-delete cache. -/
def stCached : ModelState := ⟨[r1], [vStr "k1"]⟩

def recNoKey : Value := vObj [("name", vStr "A")]

def recK1A : Value := vObj [("_key", vStr "k1"), ("name", vStr "A")]

def recK1B : Value := vObj [("_key", vStr "k1"), ("name", vStr "B")]

def recMine : Value := vObj [("_key", vStr "mine"), ("name", vStr "A")]

def recMineZ : Value := vObj [("_key", vStr "mine"), ("name", vStr "Z")]

def recGen1 : Value := vObj [("_key", vStr "gen1"), ("name", vStr "A")]

def tplBare : Value :=
  vObj [("name", vObj [("type", vStr "string"), ("minLength", vNum 5)])]

def tplTupled : Value :=
  vObj [("name", vObj [("type", vStr "string"),
    ("minLength", vArr [vNum 5, vStr "too short"])])]

/-- Compiled form of `tplBare`: the bare numeric bound registers a validator. -/
def schemaBare : Value :=
  vObj [("_key", rootKeyNode),
    ("name", vObj [("_type", vStr "string"),
      ("_validators", vArr [vFun (.minLengthV (vNum 5) (vStr "name"))]),
      ("_unique", vUndef)])]

/-- Compiled form of `tplTupled`: the tupled bound registers **no**
validator (the array option fails the `typeof === "number"` guard); the
`minLength` template key merely compiles into a stray array-typed child. -/
def schemaTupled : Value :=
  vObj [("_key", rootKeyNode),
    ("name", vObj [("_type", vStr "string"), ("_validators", vArr []),
      ("_unique", vUndef),
      ("minLength", vObj [("_type", vStr "array"), ("_schema", vObj [])])])]

def recAB : Value := vObj [("name", vStr "ab")]

def tplAddr : Value := vObj [("address", vObj [("city", vStr "string")])]

/-- Compiled form of `tplAddr`: the nested plain mapping compiles to a child
object carrying no `_type` tag. -/
def schemaAddr : Value :=
  vObj [("_key", rootKeyNode),
    ("address", vObj [("city", leafNode "string")])]

def recAddr : Value :=
  vObj [("address", vObj [("city", vStr "X"), ("junk", vNum 1)]),
    ("extra", vNum 2)]

/-- What `cast` returns for `recAddr`: the unknown top-level `extra` is
dropped, but the `address` sub-object is copied wholesale, `junk` included. -/
def castResAddr : Value :=
  vObj [("_key", vUndef), ("address", vObj [("city", vStr "X"), ("junk", vNum 1)])]

def patch99 : Value := vObj [("age", vNum 99)]

def tplTags : Value := vObj [("tags", vArr [vObj [("tag", vStr "string")]])]

/-- Compiled form of `tplTags`: an array node with a compiled element
schema. -/
def schemaTags : Value :=
  vObj [("_key", rootKeyNode),
    ("tags", vObj [("_type", vStr "array"),
      ("_schema", vObj [("tag", leafNode "string")])])]

/-! ### Claim theorems: the concrete (closed) results -/

/-- C1.  The pending-delete cache is never populated: on the scenario-D state
(two records named "X"), `deleteMany({name:"X"})` resolves with both target
keys identified but with the model state — in particular `_deletedKeys` —
completely unchanged, and an immediately following `find({})` still returns
both records while the store deletions are in flight.  No code path ever adds
a key to `_deletedKeys` (model.js only initialises it at line 41 and removes
confirmed keys at line 759), contradicting the documented cache behaviour the
claim describes. -/
theorem C1_cache_never_populated :
    deleteManyM rt0 st12 (vObj [("name", vStr "X")]) =
      .ok (st12, [vStr "k1", vStr "k2"]) ∧
    st12.deletedKeys = [] ∧
    findM rt0 st12 (vObj []) = .ok [⟨r1, false⟩, ⟨r2, false⟩] :=
  ⟨rfl, rfl, rfl⟩

/-- C5.  The bare numeric bound `minLength: 5` is compiled into a registered
validator and rejects the record `{name:"ab"}` with the default message, but
the tupled form `minLength: [5, "too short"]` fails the
`typeof === "number"` registration guard, compiles to an empty validator
list, and the same violating record validates without any error — the bound
(and its custom message) is never enforced in the tupled form. -/
theorem C5_tupled_bound_not_enforced :
    generateSchema 16 tplBare vUndef = .ok schemaBare ∧
    validateObject 16 recAB schemaBare =
      .error "length of name must be at least 5" ∧
    generateSchema 16 tplTupled vUndef = .ok schemaTupled ∧
    validateObject 16 recAB schemaTupled = .ok recAB :=
  ⟨rfl, rfl, rfl, rfl⟩

/-- C2 counterexample.  A read with **no query at all** skips the
soft-delete filter: with `k1` in the pending-delete cache, `find()` (falsy
query) still returns the cached record, because `#parseQuery` returns the
documents unfiltered when the query is falsy. -/
theorem C2_counterexample :
    findM rt0 stCached vUndef = .ok [⟨r1, false⟩] ∧
    (stCached.deletedKeys.any fun k => jsEq k (optMember r1 "_key")) = true :=
  ⟨rfl, rfl⟩

/-- C3 counterexample.  The `key` argument of `insertOne` is never handed to
the store: with a record that carries no `_key` of its own and an explicit
key `"k1"`, no key is generated (the argument is truthy), the `put` sees an
object without a valid in-line key and rejects with `DataError` — so two such
calls leave **zero** records under `"k1"`, not one. -/
theorem C3_counterexample :
    insertOneM 16 schemaName ⟨[], []⟩ recNoKey (vStr "k1") "g1" =
      .error "DataError" ∧
    countByKey ([] : List Value) (vStr "k1") = 0 :=
  ⟨rfl, rfl⟩

/-- C4 counterexample.  `create` neither keeps a supplied primary key nor
rejects when that supplied key already exists: with a record carrying
`_key:"mine"` and another record already stored under `"mine"`, `create`
succeeds and stores the record under the freshly generated key `"gen1"`,
overwriting the supplied key. -/
theorem C4_counterexample :
    createM 16 schemaName ⟨[recMineZ], []⟩ recMine "gen1" =
      .ok (⟨[recMineZ, recGen1], []⟩, ⟨recGen1, false⟩) ∧
    countByKey [recMineZ] (vStr "mine") = 1 :=
  ⟨rfl, rfl⟩

/-- C6 counterexample.  A record that does not own the queried field is
rejected silently — `doesMatch` returns `false` without ever reaching the
operator object, so the unsupported `$foo` raises nothing. -/
theorem C6_counterexample :
    doesMatch rt0 (vObj [("age", vObj [("$foo", vNum 1)])])
      (vObj [("_key", vStr "k")]) = .ok false :=
  rfl

/-- C7 counterexample.  A schema field declared as a nested plain mapping is
copied through wholesale by `cast`: the compiled `address` node carries no
`_type` tag, so `#cast` treats it as a leaf, and the unknown nested field
`junk` survives in the result (while the unknown top-level `extra` is
dropped). -/
theorem C7_counterexample :
    generateSchema 16 tplAddr vUndef = .ok schemaAddr ∧
    castObject 16 recAddr schemaAddr = .ok (recAddr, castResAddr) ∧
    optMember (optMember castResAddr "address") "junk" = vNum 1 :=
  ⟨rfl, rfl, rfl⟩

/-! ### Supporting lemmas -/

@[simp] theorem except_bind_ok (a : α) (f : α → Except String β) :
    (Except.ok a >>= f) = f a := rfl

@[simp] theorem except_bind_error (e : String) (f : α → Except String β) :
    ((Except.error e : Except String α) >>= f) = Except.error e := rfl

@[simp] theorem except_map_ok (a : α) (f : α → β) :
    ((Except.ok a : Except String α).map f) = Except.ok (f a) := rfl

@[simp] theorem except_map_error (e : String) (f : α → β) :
    ((Except.error e : Except String α).map f) = Except.error e := rfl

theorem filterE_mem {p : α → Except String Bool} {l res : List α}
    (h : filterE p l = .ok res) : ∀ x ∈ res, x ∈ l := by
  induction l generalizing res with
  | nil =>
    simp only [filterE] at h
    cases h
    simp
  | cons a as ih =>
    simp only [filterE] at h
    cases hp : p a with
    | error e => rw [hp] at h; simp at h
    | ok b =>
      rw [hp] at h
      cases hr : filterE p as with
      | error e => rw [hr] at h; simp at h
      | ok rest =>
        rw [hr] at h
        simp only [except_bind_ok, Except.ok.injEq] at h
        subst h
        intro x hx
        cases b with
        | true =>
          rcases List.mem_cons.mp hx with h1 | h2
          · exact h1 ▸ List.mem_cons_self a as
          · exact List.mem_cons_of_mem a (ih hr x h2)
        | false => exact List.mem_cons_of_mem a (ih hr x hx)

theorem findE_mem {p : Value → Except String Bool} {l : List Value} {v : Value}
    (h : findE p l = .ok v) : v = vUndef ∨ v ∈ l := by
  induction l generalizing v with
  | nil =>
    simp only [findE] at h
    cases h
    exact Or.inl rfl
  | cons a as ih =>
    simp only [findE] at h
    cases hp : p a with
    | error e => rw [hp] at h; simp at h
    | ok b =>
      rw [hp] at h
      simp only [except_bind_ok] at h
      cases b with
      | true =>
        simp only [if_true, Except.ok.injEq] at h
        subst h
        exact Or.inr (List.mem_cons_self a as)
      | false =>
        rcases ih h with h1 | h2
        · exact Or.inl h1
        · exact Or.inr (List.mem_cons_of_mem a h2)

theorem mem_filterDeleted {dk docs : List Value} {x : Value}
    (h : x ∈ filterDeleted dk docs) :
    (dk.any fun k => jsEq k (optMember x "_key")) = false := by
  have := List.mem_filter.mp h
  simpa using this.2

/-! ### Claim C2 (amended) -/

/-- C2 (amended).  Every read that supplies a truthy query excludes the
pending-delete cache before predicate evaluation — any document surviving
`#parseQuery` (in both the many- and first-match forms) has a key outside the
cache — and `findByKey` always applies the filter.  (Reads with a falsy
query skip the filter entirely; see the counterexample.) -/
theorem C2_reads_exclude_pending_delete :
    (∀ (rt : Value → Value → Bool) (dk : List Value) (q : Value)
      (docs res : List Value), jsFalsy q = false →
      parseQueryMany rt dk q docs = .ok res →
      ∀ d ∈ res, (dk.any fun k => jsEq k (optMember d "_key")) = false) ∧
    (∀ (rt : Value → Value → Bool) (dk : List Value) (q v : Value)
      (docs : List Value), jsFalsy q = false →
      parseQueryOne rt dk q docs = .ok v →
      v = vUndef ∨ (dk.any fun k => jsEq k (optMember v "_key")) = false) ∧
    (∀ (st : ModelState) (key : Value) (d : LDocument),
      findByKeyM st key = .ok (some d) →
      (st.deletedKeys.any fun k => jsEq k (optMember d.object "_key")) = false) := by
  refine ⟨?_, ?_, ?_⟩
  · intro rt dk q docs res hq h d hd
    rw [parseQueryMany, hq] at h
    simp only [Bool.false_eq_true, if_false] at h
    exact mem_filterDeleted (filterE_mem h d hd)
  · intro rt dk q v docs hq h
    rw [parseQueryOne, hq] at h
    simp only [Bool.false_eq_true, if_false] at h
    rcases findE_mem h with h1 | h2
    · exact Or.inl h1
    · exact Or.inr (mem_filterDeleted h2)
  · intro st key d h
    rw [findByKeyM] at h
    cases hk : jsFalsy key with
    | true => rw [hk] at h; simp at h
    | false =>
      rw [hk] at h
      simp only [Bool.false_eq_true, if_false] at h
      cases hg : storeGetE st.store key with
      | error e => rw [hg] at h; simp at h
      | ok found =>
        rw [hg] at h
        simp only [except_bind_ok] at h
        cases found with
        | none => simp at h
        | some r =>
          simp only at h
          cases hf : filterDeleted st.deletedKeys [r] with
          | nil => rw [hf] at h; simp at h
          | cons r2 t =>
            rw [hf] at h
            simp only at h
            cases ht : jsTruthy r2 with
            | false => rw [ht] at h; simp at h
            | true =>
              rw [ht] at h
              simp only [if_true] at h
              cases h
              have : r2 ∈ filterDeleted st.deletedKeys [r] := by
                rw [hf]; exact List.mem_cons_self r2 t
              exact mem_filterDeleted this

/-- C2 witness: on a store holding `r1` and `r2` with `k2` pending deletion,
`find({name:"X"})` returns only `r1`, whose key is outside the cache. -/
theorem C2_witness :
    ([vStr "k2"].any fun k => jsEq k (optMember r1 "_key")) = false :=
  C2_reads_exclude_pending_delete.1 rt0 [vStr "k2"]
    (vObj [("name", vStr "X")]) [r1, r2] [r1] rfl rfl r1 (by simp)

/-! ### Claim C8 -/

/-- C8.  Document behaviour: the `_key` field never gets a setter; a setter
exists exactly where a getter exists for a non-key field (schema-known and
owned); the setter body marks the document dirty; `save()` on a clean
document returns the same document and the untouched state; `save()` on a
dirty document is exactly the Model's upsert (`insertOne`) keyed on the
document's own `_key`, with the internal record replaced by the returned
document's record and the dirty flag cleared. -/
theorem C8_document_dirty_tracking :
    (∀ (schema : Value) (doc : LDocument), docHasSetter schema doc "_key" = false) ∧
    (∀ (schema : Value) (doc : LDocument) (k : String),
      docHasSetter schema doc k = (docHasGetter schema doc k && !(k == "_key"))) ∧
    (∀ (doc : LDocument) (k : String) (v : Value) (d2 : LDocument),
      docSetField doc k v = .ok d2 → d2.isNew = true) ∧
    (∀ (fuel : Nat) (schema : Value) (st : ModelState) (doc : LDocument)
      (g : String), doc.isNew = false → docSave fuel schema st doc g = .ok (st, doc)) ∧
    (∀ (fuel : Nat) (schema : Value) (st : ModelState) (doc : LDocument)
      (g : String), doc.isNew = true →
      docSave fuel schema st doc g =
        (insertOneM fuel schema st doc.object (optMember doc.object "_key") g).map
          fun p => (p.1, ⟨p.2.object, false⟩)) := by
  refine ⟨?_, ?_, ?_, ?_, ?_⟩
  · intro schema doc
    simp [docHasSetter]
  · intro schema doc k
    simp [docHasSetter, docHasGetter, Bool.and_assoc]
  · intro doc k v d2 h
    rw [docSetField] at h
    cases hs : setMember doc.object k v with
    | error e => rw [hs] at h; simp at h
    | ok o =>
      rw [hs] at h
      simp only [except_bind_ok, Except.ok.injEq] at h
      subst h
      rfl
  · intro fuel schema st doc g h
    simp [docSave, h]
  · intro fuel schema st doc g h
    simp [docSave, h]

/-- C8 witness: a clean document saves to itself on the empty store. -/
theorem C8_witness :
    docSave 16 schemaName ⟨[], []⟩ ⟨recK1A, false⟩ "g9" =
      .ok (⟨[], []⟩, ⟨recK1A, false⟩) :=
  C8_document_dirty_tracking.2.2.2.1 16 schemaName ⟨[], []⟩ ⟨recK1A, false⟩ "g9" rfl

/-! ### Claim C9 -/

/-- The merged-and-cast record for the C9 witness run. -/
def updK1 : Value :=
  vObj [("_key", vStr "k1"), ("name", vStr "X"), ("age", vNum 99)]

/-- C9.  On the happy lookup path, `findByKeyAndUpdate(key, patch)` settles
its promise with a Document wrapping the **patch argument itself**, not the
merged record (the unconditional `resolve(new LeafstoreDocument(object,
this, false))` runs synchronously before the `put` completes and wins the
race); the merged, re-validated, re-cast record with the original key forced
back is what reaches the store, and an asynchronous failure of that `put`
(`putFails = true`) leaves the store unchanged without rejecting the
already-settled promise. -/
theorem C9_update_resolves_with_patch
    (fuel : Nat) (schema : Value) (st : ModelState) (key patch orig u : Value)
    (p : Value × Value) (c : Value) (store2 : List Value) (putFails : Bool)
    (hk : jsFalsy key = false) (hp1 : jsFalsy patch = false)
    (hp2 : isObjectType patch = true)
    (hget : storeGetE st.store key = .ok (some orig))
    (hfd : filterDeleted st.deletedKeys [orig] = [orig])
    (ht : jsTruthy orig = true)
    (hv : validateObject fuel (spreadMerge orig patch) schema = .ok u)
    (hc : castObject fuel u schema = .ok p)
    (hsk : setMember p.2 "_key" key = .ok c)
    (hput : storePut st.store c = .ok store2) :
    findByKeyAndUpdateM fuel schema st key patch putFails =
      .ok ({ st with store := if putFails then st.store else store2 },
        ⟨patch, false⟩) := by
  rw [findByKeyAndUpdateM]
  simp only [hk, hp1, hp2, Bool.false_eq_true, if_false, Bool.not_true,
    hget, except_bind_ok]
  simp only [hfd, ht, if_true, hv, except_bind_ok, hc, hsk, hput]

/-- C9 witness: updating `k1` with `{age: 99}` while the put fails —
the promise still resolves, with the patch-wrapped document, and the store
keeps the original record. -/
theorem C9_witness :
    findByKeyAndUpdateM 16 schemaNameAge ⟨[r1], []⟩ (vStr "k1") patch99 true =
      .ok (⟨[r1], []⟩, ⟨patch99, false⟩) :=
  C9_update_resolves_with_patch 16 schemaNameAge ⟨[r1], []⟩ (vStr "k1") patch99
    r1 updK1 (updK1, updK1) updK1 [updK1] true
    rfl rfl rfl rfl rfl rfl rfl rfl rfl rfl

/-! ### Store lemmas -/

theorem lookupField_setField_self (fs : List (String × Value)) (k : String)
    (v : Value) : lookupField (setField fs k v) k = some v := by
  induction fs with
  | nil => simp [setField, lookupField]
  | cons p rest ih =>
    obtain ⟨k2, v2⟩ := p
    by_cases h : k2 == k
    · simp [setField, lookupField, h]
    · simp only [setField, h, Bool.false_eq_true, if_false]
      simp only [lookupField, h, Bool.false_eq_true, if_false]
      exact ih

theorem setMember_key {x v c : Value} {k : String}
    (h : setMember x k v = .ok c) : optMember c k = v := by
  cases x <;> simp [setMember] at h
  subst h
  simp [optMember, getMember, lookupField_setField_self]

theorem countByKey_cons (x : Value) (l : List Value) (k : Value) :
    countByKey (x :: l) k =
      (if jsEq (recKey x) k then 1 else 0) + countByKey l k := by
  by_cases h : jsEq (recKey x) k
  · simp [countByKey, List.filter, h, Nat.add_comm]
  · simp [countByKey, List.filter, h]

theorem countByKey_zero_of_any_false {store : List Value} {key : Value}
    (h : (store.any fun r => jsEq (recKey r) key) = false) :
    countByKey store key = 0 := by
  induction store with
  | nil => rfl
  | cons x l ih =>
    simp only [List.any_cons, Bool.or_eq_false_iff] at h
    rw [countByKey_cons, h.1, ih h.2]
    simp

theorem find?_eq_none_of_any_false {store : List Value} {key : Value}
    (h : (store.any fun r => jsEq (recKey r) key) = false) :
    (store.find? fun r => jsEq (recKey r) key) = none := by
  rw [List.find?_eq_none]
  intro x hx
  rw [List.any_eq_false] at h
  exact fun hc => h x hx hc

theorem countByKey_append (a b : List Value) (k : Value) :
    countByKey (a ++ b) k = countByKey a k + countByKey b k := by
  simp [countByKey, List.filter_append]

theorem storeAdd_ok {store store2 : List Value} {rec : Value}
    (h : storeAdd store rec = .ok store2) :
    store2 = store ++ [rec] ∧ validKey (recKey rec) = true ∧
      (store.any fun r => jsEq (recKey r) (recKey rec)) = false := by
  rw [storeAdd] at h
  cases hv : validKey (recKey rec) with
  | false => rw [hv] at h; simp at h
  | true =>
    rw [hv] at h
    simp only [if_true] at h
    cases ha : store.any fun r => jsEq (recKey r) (recKey rec) with
    | true => rw [ha] at h; simp at h
    | false =>
      rw [ha] at h
      simp only [Bool.false_eq_true, if_false, Except.ok.injEq] at h
      exact ⟨h.symm, rfl, rfl⟩

theorem countByKey_putRecord {store : List Value} {rec key : Value}
    (hr : jsEq (recKey rec) key = true) (h : countByKey store key ≤ 1) :
    countByKey (putRecord store rec key) key = 1 := by
  induction store with
  | nil => simp [putRecord, countByKey, List.filter, hr]
  | cons r rest ih =>
    rw [putRecord]
    cases hx : jsEq (recKey r) key with
    | true =>
      rw [if_pos rfl]
      rw [countByKey_cons, hr]
      rw [countByKey_cons, hx] at h
      simp only [if_true] at h ⊢
      omega
    | false =>
      simp only [Bool.false_eq_true, if_false]
      rw [countByKey_cons, hx]
      rw [countByKey_cons, hx] at h
      simp only [Bool.false_eq_true, if_false, Nat.zero_add] at h ⊢
      exact ih h

theorem find?_putRecord {store : List Value} {rec key : Value}
    (hr : jsEq (recKey rec) key = true) :
    ((putRecord store rec key).find? fun r => jsEq (recKey r) key) = some rec := by
  induction store with
  | nil => simp [putRecord, List.find?, hr]
  | cons r rest ih =>
    rw [putRecord]
    cases hx : jsEq (recKey r) key with
    | true => simp [List.find?, hr]
    | false =>
      simp only [Bool.false_eq_true, if_false]
      rw [List.find?]
      rw [hx]
      exact ih

theorem storePut_ok {store store2 : List Value} {rec : Value}
    (h : storePut store rec = .ok store2) :
    store2 = putRecord store rec (recKey rec) ∧ validKey (recKey rec) = true := by
  rw [storePut] at h
  cases hv : validKey (recKey rec) with
  | false => rw [hv] at h; simp at h
  | true =>
    rw [hv] at h
    simp only [if_true, Except.ok.injEq] at h
    exact ⟨h.symm, rfl⟩

/-! ### Claim C4 (amended) -/

/-- C4 (amended).  `create` **always** generates a primary key: whenever it
resolves, the stored record carries the freshly generated key (any key the
input record carried after validate/cast has been overwritten), the returned
document is not dirty, the generated key was absent from the store before
the call (so `create` rejects exactly when the *generated* key collides —
never because of a supplied key), and afterwards exactly one record sits
under the generated key and a point lookup returns it. -/
theorem C4_create_always_generates
    (fuel : Nat) (schema : Value) (st st2 : ModelState) (rec : Value)
    (g : String) (d : LDocument)
    (h : createM fuel schema st rec g = .ok (st2, d)) :
    optMember d.object "_key" = vStr g ∧ d.isNew = false ∧
    countByKey st.store (vStr g) = 0 ∧
    countByKey st2.store (vStr g) = 1 ∧
    storeGetE st2.store (vStr g) = .ok (some d.object) := by
  rw [createM] at h
  cases hv : validateObject fuel rec schema with
  | error e => rw [hv] at h; simp at h
  | ok u =>
    rw [hv] at h
    simp only [except_bind_ok] at h
    cases hc : castObject fuel u schema with
    | error e => rw [hc] at h; simp at h
    | ok p =>
      rw [hc] at h
      simp only [except_bind_ok] at h
      cases hs : setMember p.2 "_key" (vStr g) with
      | error e => rw [hs] at h; simp at h
      | ok c =>
        rw [hs] at h
        simp only [except_bind_ok] at h
        cases ha : storeAdd st.store c with
        | error e => rw [ha] at h; simp at h
        | ok store2 =>
          rw [ha] at h
          simp only [except_bind_ok, Except.ok.injEq, Prod.mk.injEq] at h
          obtain ⟨hst, hd⟩ := h
          have hkey : optMember c "_key" = vStr g := setMember_key hs
          have hrk : recKey c = vStr g := hkey
          obtain ⟨h2, hvk, hany⟩ := storeAdd_ok ha
          have hjr : jsEq (recKey c) (vStr g) = true := by
            rw [hrk]; simp [jsEq]
          refine ⟨hd ▸ hkey, hd ▸ rfl, ?_, ?_, ?_⟩
          · rw [hrk] at hany
            exact countByKey_zero_of_any_false hany
          · rw [← hst, h2, countByKey_append]
            rw [hrk] at hany
            rw [countByKey_zero_of_any_false hany]
            simp [countByKey_cons, hjr, countByKey]
          · rw [← hst, h2, storeGetE]
            simp only [validKey, if_true]
            rw [List.find?_append]
            rw [hrk] at hany
            rw [find?_eq_none_of_any_false hany]
            simp [List.find?, hjr, ← hd]

/-- C4 witness: creating `{name:"A"}` (no key) on the empty store with
generated key `gen1` stores exactly one record under `gen1` and the lookup
returns it. -/
theorem C4_witness :
    countByKey [recGen1] (vStr "gen1") = 1 ∧
    storeGetE [recGen1] (vStr "gen1") = .ok (some recGen1) := by
  have h := C4_create_always_generates 16 schemaName ⟨[], []⟩ ⟨[recGen1], []⟩
    recNoKey "gen1" ⟨recGen1, false⟩ rfl
  exact ⟨h.2.2.2.1, h.2.2.2.2⟩

/-! ### Claim C3 (amended) -/

/-- Unpack a successful `insertOneM`: the resolved document wraps the stored
record, which reached the store through a `put` keyed on its own `_key`. -/
theorem insertOneM_ok {fuel : Nat} {schema : Value} {st st1 : ModelState}
    {rec key : Value} {g : String} {d : LDocument}
    (h : insertOneM fuel schema st rec key g = .ok (st1, d)) :
    st1.store = putRecord st.store d.object (recKey d.object) ∧
    st1.deletedKeys = st.deletedKeys ∧ d.isNew = false ∧
    validKey (recKey d.object) = true := by
  rw [insertOneM] at h
  cases hv : validateObject fuel rec schema with
  | error e => rw [hv] at h; simp at h
  | ok u =>
    rw [hv] at h
    simp only [except_bind_ok] at h
    cases hc : castObject fuel u schema with
    | error e => rw [hc] at h; simp at h
    | ok p =>
      rw [hc] at h
      simp only [except_bind_ok] at h
      cases hb : jsFalsy key && jsFalsy (optMember p.2 "_key") with
      | true =>
        rw [hb] at h
        simp only [if_true] at h
        cases hs : setMember p.2 "_key" (vStr g) with
        | error e => rw [hs] at h; simp at h
        | ok c =>
          rw [hs] at h
          simp only [except_bind_ok] at h
          cases hp : storePut st.store c with
          | error e => rw [hp] at h; simp at h
          | ok store2 =>
            rw [hp] at h
            simp only [except_bind_ok, Except.ok.injEq, Prod.mk.injEq] at h
            obtain ⟨hst, hd⟩ := h
            obtain ⟨h2, hvk⟩ := storePut_ok hp
            subst hd
            exact ⟨by rw [← hst, h2], by rw [← hst], rfl, hvk⟩
      | false =>
        rw [hb] at h
        simp only [Bool.false_eq_true, if_false] at h
        simp only [pure, Except.pure, except_bind_ok] at h
        cases hp : storePut st.store p.2 with
        | error e => rw [hp] at h; simp at h
        | ok store2 =>
          rw [hp] at h
          simp only [except_bind_ok, Except.ok.injEq, Prod.mk.injEq] at h
          obtain ⟨hst, hd⟩ := h
          obtain ⟨h2, hvk⟩ := storePut_ok hp
          subst hd
          exact ⟨by rw [← hst, h2], by rw [← hst], rfl, hvk⟩

/-- C3 (amended).  `insertOne` is a put-style upsert keyed on the **record's
own** `_key` (the `key` argument only decides whether a key is generated):
(1) two successive `insertOne` calls whose resolved documents carry the same
key `k` leave exactly one stored record under `k`, holding the second call's
record, provided the store held at most one record under `k` (the store
invariant); (2) when the `key` argument is truthy no key is ever generated —
the result does not depend on the generated-key input at all; (3) whether
`insertOne` resolves or rejects is independent of the store contents: it
never rejects because the key already exists. -/
theorem C3_insertOne_upsert :
    (∀ (fuel : Nat) (schema : Value) (st st1 st2 : ModelState)
      (rec1 rec2 : Value) (k : String) (g1 g2 : String) (d1 d2 : LDocument),
      countByKey st.store (vStr k) ≤ 1 →
      insertOneM fuel schema st rec1 (vStr k) g1 = .ok (st1, d1) →
      optMember d1.object "_key" = vStr k →
      insertOneM fuel schema st1 rec2 (vStr k) g2 = .ok (st2, d2) →
      optMember d2.object "_key" = vStr k →
      countByKey st2.store (vStr k) = 1 ∧
      storeGetE st2.store (vStr k) = .ok (some d2.object)) ∧
    (∀ (fuel : Nat) (schema : Value) (st : ModelState) (rec key : Value)
      (g1 g2 : String), jsFalsy key = false →
      insertOneM fuel schema st rec key g1 =
        insertOneM fuel schema st rec key g2) ∧
    (∀ (fuel : Nat) (schema : Value) (sA sB dkA dkB : List Value)
      (rec key : Value) (g : String),
      (∃ r, insertOneM fuel schema ⟨sA, dkA⟩ rec key g = .ok r) ↔
      (∃ r, insertOneM fuel schema ⟨sB, dkB⟩ rec key g = .ok r)) := by
  refine ⟨?_, ?_, ?_⟩
  · intro fuel schema st st1 st2 rec1 rec2 k g1 g2 d1 d2 hle h1 hk1 h2 hk2
    obtain ⟨hs1, _, _, _⟩ := insertOneM_ok h1
    obtain ⟨hs2, _, _, _⟩ := insertOneM_ok h2
    have e1 : recKey d1.object = vStr k := hk1
    have e2 : recKey d2.object = vStr k := hk2
    rw [e1] at hs1
    rw [e2] at hs2
    have hj : jsEq (vStr k) (vStr k) = true := by simp [jsEq]
    have hc1 : countByKey st1.store (vStr k) = 1 := by
      rw [hs1]
      exact countByKey_putRecord (by rw [e1]; exact hj) hle
    constructor
    · rw [hs2]
      exact countByKey_putRecord (by rw [e2]; exact hj) (by rw [hc1])
    · rw [hs2, storeGetE]
      simp only [validKey, if_true]
      rw [find?_putRecord (by rw [e2]; exact hj)]
  · intro fuel schema st rec key g1 g2 h
    simp [insertOneM, h]
  · intro fuel schema sA sB dkA dkB rec key g
    rw [insertOneM, insertOneM]
    cases hv : validateObject fuel rec schema with
    | error e => simp
    | ok u =>
      simp only [except_bind_ok]
      cases hc : castObject fuel u schema with
      | error e => simp
      | ok p =>
        simp only [except_bind_ok]
        cases hb : jsFalsy key && jsFalsy (optMember p.2 "_key") with
        | true =>
          simp only [if_true]
          cases hs : setMember p.2 "_key" (vStr g) with
          | error e => simp
          | ok c =>
            simp only [except_bind_ok, storePut]
            cases validKey (recKey c) <;> simp
        | false =>
          simp only [Bool.false_eq_true, if_false, pure, Except.pure,
            except_bind_ok, storePut]
          cases validKey (recKey p.2) <;> simp

/-- C3 witness: inserting `{_key:"k1", name:"A"}` and then
`{_key:"k1", name:"B"}` with key `"k1"` leaves exactly the second record
under `"k1"`. -/
theorem C3_witness :
    countByKey [recK1B] (vStr "k1") = 1 ∧
    storeGetE [recK1B] (vStr "k1") = .ok (some recK1B) := by
  have h := C3_insertOne_upsert.1 16 schemaName ⟨[], []⟩ ⟨[recK1A], []⟩
    ⟨[recK1B], []⟩ recK1A recK1B "k1" "g1" "g2" ⟨recK1A, false⟩ ⟨recK1B, false⟩
    (by decide) rfl rfl rfl rfl
  exact h

/-! ### Claim C6 (amended) -/

theorem find?_none_of_not_supported (rt : Value → Value → Bool) (op : String)
    (h : isSupportedOp op = false) :
    (supportedOperators rt).find? (fun p => p.1 == op) = none := by
  rw [List.find?_eq_none]
  intro x hx hpx
  have hx1 : x.1 = op := by simpa using hpx
  have hmem : x.1 ∈ (supportedOperators rt).map Prod.fst :=
    List.mem_map_of_mem Prod.fst hx
  rw [show (supportedOperators rt).map Prod.fst = supportedOpNames from rfl]
    at hmem
  rw [hx1] at hmem
  rw [isSupportedOp] at h
  simp only [List.contains] at h
  rw [List.elem_eq_true_of_mem hmem] at h
  cases h

theorem evalOps_ok_true {rt : Value → Value → Bool} {a : Value}
    {ops : List (String × Value)} (h : evalOps rt a ops = .ok true) :
    ∀ p ∈ ops, isSupportedOp p.1 = true := by
  induction ops with
  | nil => simp
  | cons q rest ih =>
    obtain ⟨op, operand⟩ := q
    intro p hp
    rw [evalOps] at h
    cases hf : (supportedOperators rt).find? (fun x => x.1 == op) with
    | none => rw [hf] at h; simp at h
    | some p0 =>
      rw [hf] at h
      simp only at h
      cases hcond : p0.2 a operand with
      | false => rw [hcond] at h; simp at h
      | true =>
        rw [hcond] at h
        simp only [if_true] at h
        rcases List.mem_cons.mp hp with h1 | h2
        · subst h1
          have hpred := List.find?_some hf
          have hm : p0 ∈ supportedOperators rt := List.mem_of_find?_eq_some hf
          have : p0.1 ∈ supportedOpNames := by
            have := List.mem_map_of_mem Prod.fst hm
            rwa [show (supportedOperators rt).map Prod.fst = supportedOpNames
              from rfl] at this
          have hop : op ∈ supportedOpNames := by
            have he : p0.1 = op := by simpa using hpred
            rwa [he] at this
          simp only [isSupportedOp, List.contains]
          exact List.elem_eq_true_of_mem hop
        · exact ih h p h2

theorem matchEntries_ok_true {rt : Value → Value → Bool} {d : Value}
    {entries : List (String × Value)}
    (h : matchEntries rt d entries = .ok true) :
    ∀ p ∈ entries, isObjectType p.2 = true →
    ∀ q ∈ jsOwnEnumerableEntries p.2, isSupportedOp q.1 = true := by
  induction entries with
  | nil => simp
  | cons e rest ih =>
    obtain ⟨key, qv⟩ := e
    intro p hp hobj
    rw [matchEntries] at h
    cases ho : hasOwnE d key with
    | error e2 => rw [ho] at h; simp at h
    | ok owns =>
      rw [ho] at h
      simp only [except_bind_ok] at h
      cases owns with
      | false => simp at h
      | true =>
        simp only [Bool.not_true, Bool.false_eq_true, if_false] at h
        cases hqv : isObjectType qv with
        | true =>
          rw [hqv] at h
          simp only [if_true] at h
          cases hg : getMember d key with
          | error e2 => rw [hg] at h; simp at h
          | ok a =>
            rw [hg] at h
            simp only [except_bind_ok] at h
            cases he : evalOps rt a (jsOwnEnumerableEntries qv) with
            | error e2 => rw [he] at h; simp at h
            | ok b =>
              rw [he] at h
              simp only [except_bind_ok] at h
              cases b with
              | false => simp at h
              | true =>
                simp only [if_true] at h
                rcases List.mem_cons.mp hp with h1 | h2
                · subst h1
                  exact evalOps_ok_true he
                · exact ih h p h2 hobj
        | false =>
          rw [hqv] at h
          simp only [Bool.false_eq_true, if_false] at h
          cases hg : getMember d key with
          | error e2 => rw [hg] at h; simp at h
          | ok dv =>
            rw [hg] at h
            simp only [except_bind_ok] at h
            cases hje : jsEq dv qv with
            | false => rw [hje] at h; simp at h
            | true =>
              rw [hje] at h
              simp only [if_true] at h
              rcases List.mem_cons.mp hp with h1 | h2
              · subst h1
                rw [hobj] at hqv
                cases hqv
              · exact ih h p h2 hobj

theorem getMember_ok_of_hasOwnE {d : Value} {k : String} {b : Bool}
    (h : hasOwnE d k = .ok b) : ∃ v, getMember d k = .ok v := by
  cases d <;> simp [hasOwnE] at h <;> exact ⟨_, rfl⟩

/-- C6 (amended).  Unknown operators are never skipped once evaluation
reaches them, but a record that fails an earlier check is rejected without
any error: (1) whenever `doesMatch` declares a record a match, every key of
every operator-object in the query belongs to the fixed set
`{$eq,$gt,$gte,$lt,$lte,$in,$nin,$ne,$regex}` — a record is never (even
partially) matched past an unsupported operator; (2) when the record owns
the queried field and the unsupported key comes first in its
operator-object, evaluation aborts with the `Operator ... is not supported`
error.  (A record lacking the field is rejected with `false` instead — see
the counterexample.) -/
theorem C6_unsupported_operator :
    (∀ (rt : Value → Value → Bool) (q d : Value),
      doesMatch rt q d = .ok true →
      ∀ p ∈ jsOwnEnumerableEntries q, isObjectType p.2 = true →
      ∀ o ∈ jsOwnEnumerableEntries p.2, isSupportedOp o.1 = true) ∧
    (∀ (rt : Value → Value → Bool) (d operand : Value) (k op : String)
      (rest : List (String × Value)),
      hasOwnE d k = .ok true → isSupportedOp op = false →
      doesMatch rt (vObj [(k, vObj ((op, operand) :: rest))]) d =
        .error ("Operator " ++ sq ++ op ++ sq ++ " is not supported")) := by
  constructor
  · intro rt q d h
    exact matchEntries_ok_true h
  · intro rt d operand k op rest howns hop
    obtain ⟨a, hg⟩ := getMember_ok_of_hasOwnE howns
    rw [doesMatch]
    rw [show jsOwnEnumerableEntries (vObj [(k, vObj ((op, operand) :: rest))]) =
      [(k, vObj ((op, operand) :: rest))] from rfl]
    rw [matchEntries, howns]
    simp only [except_bind_ok, Bool.not_true, Bool.false_eq_true, if_false]
    rw [show isObjectType (vObj ((op, operand) :: rest)) = true from rfl]
    simp only [if_true, hg, except_bind_ok]
    rw [show jsOwnEnumerableEntries (vObj ((op, operand) :: rest)) =
      (op, operand) :: rest from rfl]
    rw [evalOps, find?_none_of_not_supported rt op hop]
    rfl

/-- C6 witness: a record owning `age` queried with `{age: {$foo: 1}}` makes
evaluation abort with the unsupported-operator error. -/
theorem C6_witness :
    doesMatch rt0 (vObj [("age", vObj [("$foo", vNum 1)])])
      (vObj [("age", vNum 3)]) =
      .error ("Operator " ++ sq ++ "$foo" ++ sq ++ " is not supported") :=
  C6_unsupported_operator.2 rt0 (vObj [("age", vNum 3)]) (vNum 1) "age" "$foo"
    [] rfl rfl

/-! ### Claim C7 (amended) -/

theorem lookupField_setField_other (fs : List (String × Value)) (k : String)
    (v : Value) (k2 : String) (h : (k2 == k) = false) :
    lookupField (setField fs k v) k2 = lookupField fs k2 := by
  induction fs with
  | nil =>
    have hne : ¬(k == k2) := by
      intro hc
      exact (show k2 ≠ k by simpa using h) (show k2 = k from (by simpa using hc : k = k2).symm)
    simp [setField, lookupField, hne]
  | cons p rest ih =>
    obtain ⟨k3, v3⟩ := p
    by_cases h3 : k3 == k
    · have : ¬(k3 == k2) := by
        intro hc
        rw [show k3 = k from by simpa using h3] at hc
        rw [show k = k2 from by simpa using hc] at h
        simp at h
      simp [setField, lookupField, h3, this]
    · simp only [setField, h3, Bool.false_eq_true, if_false]
      by_cases h4 : k3 == k2
      · simp [lookupField, h4]
      · simp only [lookupField, h4, Bool.false_eq_true, if_false]
        exact ih

theorem hasOwnB_setMember {res res2 v : Value} {k : String}
    (h : setMember res k v = .ok res2) :
    ∀ k2, hasOwnB res2 k2 = (hasOwnB res k2 || (k2 == k)) := by
  cases res <;> simp [setMember] at h
  subst h
  intro k2
  by_cases h2 : k2 == k
  · rw [show k2 = k from by simpa using h2]
    simp [hasOwnB, lookupField_setField_self]
  · have h2f : (k2 == k) = false := by simpa using h2
    simp [hasOwnB, lookupField_setField_other _ _ _ _ h2f, h2f]

theorem castFields_keys :
    ∀ (entries : List (String × Value)) (fuel : Nat) (obj acc obj2 res : Value),
    castFields fuel obj acc entries = .ok (obj2, res) →
    ∀ k, hasOwnB res k = (hasOwnB acc k || (entries.map Prod.fst).contains k) := by
  intro entries
  induction entries with
  | nil =>
    intro fuel obj acc obj2 res h k
    rw [castFields] at h
    simp only [Except.ok.injEq, Prod.mk.injEq] at h
    rw [← h.2]
    simp [List.contains]
  | cons e rest ih =>
    intro fuel obj acc obj2 res h k
    obtain ⟨key, fp⟩ := e
    cases fuel with
    | zero => rw [castFields] at h; cases h
    | succ fuel =>
      rw [castFields] at h
      cases hT : getMember fp "_type" with
      | error e2 => rw [hT] at h; simp at h
      | ok t =>
        rw [hT] at h
        simp only [except_bind_ok] at h
        by_cases hA : isTag t "array"
        · rw [if_pos hA] at h
          cases hcur : getMember obj key with
          | error e2 => rw [hcur] at h; simp at h
          | ok cur =>
            rw [hcur] at h
            simp only [except_bind_ok] at h
            cases hmut : defaultIfFalsy obj key cur with
            | error e2 => rw [hmut] at h; simp at h
            | ok obj1 =>
              rw [hmut] at h
              simp only [except_bind_ok] at h
              cases hcur2 : getMember obj1 key with
              | error e2 => rw [hcur2] at h; simp at h
              | ok cur2 =>
                rw [hcur2] at h
                simp only [except_bind_ok] at h
                cases cur2 with
                | vArr items =>
                  simp only at h
                  cases hes : getMember fp "_schema" with
                  | error e2 => rw [hes] at h; simp at h
                  | ok es =>
                    rw [hes] at h
                    simp only [except_bind_ok] at h
                    cases hmap : mapE (fun it => castObject fuel it es) items with
                    | error e2 => rw [hmap] at h; simp at h
                    | ok pairs =>
                      rw [hmap] at h
                      simp only [except_bind_ok] at h
                      cases hwb : writeBack obj1 key
                          (vArr (pairs.map Prod.fst)) with
                      | error e2 => rw [hwb] at h; simp at h
                      | ok obj4 =>
                        rw [hwb] at h
                        simp only [except_bind_ok] at h
                        cases hsm : setMember acc key
                            (vArr (pairs.map Prod.snd)) with
                        | error e2 => rw [hsm] at h; simp at h
                        | ok acc2 =>
                          rw [hsm] at h
                          simp only [except_bind_ok] at h
                          rw [ih fuel obj4 acc2 obj2 res h k,
                            hasOwnB_setMember hsm k]
                          simp [List.contains, List.elem_cons, Bool.or_assoc]
                | vUndef => simp at h
                | vNull => simp at h
                | vBool b => simp at h
                | vNum n => simp at h
                | vStr s => simp at h
                | vObj fs => simp at h
                | vFun f => simp at h
        · rw [if_neg hA] at h
          by_cases hO : isTag t "object"
          · rw [if_pos hO] at h
            cases hch : getMember obj key with
            | error e2 => rw [hch] at h; simp at h
            | ok child =>
              rw [hch] at h
              simp only [except_bind_ok] at h
              cases hco : castObject fuel child fp with
              | error e2 => rw [hco] at h; simp at h
              | ok p =>
                rw [hco] at h
                simp only [except_bind_ok] at h
                cases hwb : writeBack obj key p.1 with
                | error e2 => rw [hwb] at h; simp at h
                | ok obj1 =>
                  rw [hwb] at h
                  simp only [except_bind_ok] at h
                  cases hsm : setMember acc key p.2 with
                  | error e2 => rw [hsm] at h; simp at h
                  | ok acc2 =>
                    rw [hsm] at h
                    simp only [except_bind_ok] at h
                    rw [ih fuel obj1 acc2 obj2 res h k,
                      hasOwnB_setMember hsm k]
                    simp [List.contains, List.elem_cons, Bool.or_assoc]
          · rw [if_neg hO] at h
            cases hv : getMember obj key with
            | error e2 => rw [hv] at h; simp at h
            | ok v =>
              rw [hv] at h
              simp only [except_bind_ok] at h
              cases hsm : setMember acc key v with
              | error e2 => rw [hsm] at h; simp at h
              | ok acc2 =>
                rw [hsm] at h
                simp only [except_bind_ok] at h
                rw [ih fuel obj acc2 obj2 res h k, hasOwnB_setMember hsm k]
                simp [List.contains, List.elem_cons, Bool.or_assoc]

/-- C7 (amended).  `#cast` is a **top-level** structural projection: whenever
it returns, the result owns exactly the keys of the schema object it was
called with — unknown top-level input fields are dropped and every declared
field is present.  (The projection does **not** recurse through fields
declared as nested plain mappings: those compile without a `_type` tag, are
treated as leaves, and are copied through wholesale, unknown nested fields
included — see the counterexample.  Absent/falsy declared array fields
become `[]` and array elements recurse, as exercised by the witnesses of
C10.) -/
theorem C7_cast_projection (fuel : Nat) (obj schema obj2 res : Value)
    (h : castObject fuel obj schema = .ok (obj2, res)) :
    ∀ k, hasOwnB res k = (jsOwnKeys schema).contains k := by
  cases fuel with
  | zero => rw [castObject] at h; cases h
  | succ fuel =>
    rw [castObject] at h
    intro k
    rw [castFields_keys (jsOwnEnumerableEntries schema) fuel obj (vObj [])
      obj2 res h k]
    simp [hasOwnB, lookupField, jsOwnKeys]

/-- C7 witness: the cast of `recAddr` owns no `extra` key — exactly because
`extra` is not a declared schema field. -/
theorem C7_witness :
    hasOwnB castResAddr "extra" = (jsOwnKeys schemaAddr).contains "extra" :=
  C7_cast_projection 16 recAddr schemaAddr recAddr castResAddr rfl "extra"

/-! ### Claim C10 -/

theorem mapE_mono {f g : α → Except String β} {l : List α} {l2 : List β}
    (hfg : ∀ x ∈ l, ∀ y, f x = .ok y → g x = .ok y)
    (h : mapE f l = .ok l2) : mapE g l = .ok l2 := by
  induction l generalizing l2 with
  | nil => rw [mapE] at h ⊢; exact h
  | cons a as ih =>
    rw [mapE] at h ⊢
    cases hf : f a with
    | error e => rw [hf] at h; simp at h
    | ok y =>
      rw [hf] at h
      simp only [except_bind_ok] at h
      cases hr : mapE f as with
      | error e => rw [hr] at h; simp at h
      | ok ys =>
        rw [hr] at h
        rw [hfg a (List.mem_cons_self a as) y hf]
        rw [ih (fun x hx => hfg x (List.mem_cons_of_mem a hx)) hr]
        exact h

theorem mapE_pairs {f : α → Except String (β × γ)} {g : α → Except String β}
    {l : List α} {l2 : List (β × γ)}
    (hfg : ∀ x ∈ l, ∀ p, f x = .ok p → g x = .ok p.1)
    (h : mapE f l = .ok l2) : mapE g l = .ok (l2.map Prod.fst) := by
  induction l generalizing l2 with
  | nil =>
    rw [mapE] at h
    cases h
    rw [mapE]
    rfl
  | cons a as ih =>
    rw [mapE] at h ⊢
    cases hf : f a with
    | error e => rw [hf] at h; simp at h
    | ok p =>
      rw [hf] at h
      simp only [except_bind_ok] at h
      cases hr : mapE f as with
      | error e => rw [hr] at h; simp at h
      | ok ps =>
        rw [hr] at h
        simp only [except_bind_ok, Except.ok.injEq] at h
        subst h
        rw [hfg a (List.mem_cons_self a as) p hf]
        rw [ih (fun x hx => hfg x (List.mem_cons_of_mem a hx)) hr]
        rfl

theorem frame_validate : ∀ fuel : Nat,
    (∀ obj schema u, validateObject fuel obj schema = .ok u →
      defaultArrays fuel obj schema = .ok u) ∧
    (∀ obj entries u, validateFields fuel obj entries = .ok u →
      defaultFields fuel obj entries = .ok u) := by
  intro fuel
  induction fuel with
  | zero =>
    constructor
    · intro obj schema u h
      rw [validateObject] at h
      cases h
    · intro obj entries u h
      cases entries with
      | nil =>
        rw [validateFields] at h
        rw [defaultFields]
        exact h
      | cons e rest =>
        rw [validateFields] at h
        cases h
  | succ fuel ih =>
    constructor
    · intro obj schema u h
      rw [validateObject] at h
      rw [defaultArrays]
      exact ih.2 obj (jsOwnEnumerableEntries schema) u h
    · intro obj entries u h
      cases entries with
      | nil =>
        rw [validateFields] at h
        rwa [defaultFields]
      | cons e rest =>
        obtain ⟨key, fp⟩ := e
        rw [validateFields] at h
        rw [defaultFields]
        cases hT : getMember fp "_type" with
        | error e2 => rw [hT] at h; simp at h
        | ok t =>
          rw [hT] at h
          simp only [except_bind_ok] at h ⊢
          by_cases hA : isTag t "array"
          · rw [if_pos hA] at h ⊢
            cases hcur : getMember obj key with
            | error e2 => rw [hcur] at h; simp at h
            | ok cur =>
              rw [hcur] at h
              simp only [except_bind_ok] at h ⊢
              cases hdf : defaultIfFalsy obj key cur with
              | error e2 => rw [hdf] at h; simp at h
              | ok obj1 =>
                rw [hdf] at h
                simp only [except_bind_ok] at h ⊢
                cases hcur2 : getMember obj1 key with
                | error e2 => rw [hcur2] at h; simp at h
                | ok cur2 =>
                  rw [hcur2] at h
                  simp only [except_bind_ok] at h ⊢
                  cases cur2 with
                  | vArr items =>
                    simp only at h ⊢
                    cases hes : getMember fp "_schema" with
                    | error e2 => rw [hes] at h; simp at h
                    | ok es =>
                      rw [hes] at h
                      simp only [except_bind_ok] at h ⊢
                      cases hmap : mapE (fun it => validateObject fuel it es)
                          items with
                      | error e2 => rw [hmap] at h; simp at h
                      | ok items2 =>
                        rw [hmap] at h
                        simp only [except_bind_ok] at h
                        rw [mapE_mono (fun x _ y hy => ih.1 x es y hy) hmap]
                        simp only [except_bind_ok]
                        cases hwb : writeBack obj1 key (vArr items2) with
                        | error e2 => rw [hwb] at h; simp at h
                        | ok obj3 =>
                          rw [hwb] at h
                          simp only [except_bind_ok] at h
                          exact ih.2 obj3 rest u h
                  | vUndef => simp at h
                  | vNull => simp at h
                  | vBool b => simp at h
                  | vNum n => simp at h
                  | vStr s => simp at h
                  | vObj fs => simp at h
                  | vFun f => simp at h
          · rw [if_neg hA] at h ⊢
            by_cases hO : isTag t "object"
            · rw [if_pos hO] at h ⊢
              cases hch : getMember obj key with
              | error e2 => rw [hch] at h; simp at h
              | ok child =>
                rw [hch] at h
                simp only [except_bind_ok] at h ⊢
                cases hvo : validateObject fuel child fp with
                | error e2 => rw [hvo] at h; simp at h
                | ok child2 =>
                  rw [hvo] at h
                  simp only [except_bind_ok] at h
                  rw [ih.1 child fp child2 hvo]
                  simp only [except_bind_ok]
                  cases hwb : writeBack obj key child2 with
                  | error e2 => rw [hwb] at h; simp at h
                  | ok obj1 =>
                    rw [hwb] at h
                    simp only [except_bind_ok] at h
                    exact ih.2 obj1 rest u h
            · rw [if_neg hO] at h ⊢
              cases hvs : getMember fp "_validators" with
              | error e2 => rw [hvs] at h; simp at h
              | ok vs =>
                rw [hvs] at h
                simp only [except_bind_ok] at h
                cases vs with
                | vArr fs =>
                  simp only at h
                  cases hrun : mapE (fun f => do
                      let arg ← getMember obj key
                      applyValidatorValue f arg) fs with
                  | error e2 => rw [hrun] at h; simp at h
                  | ok rs =>
                    rw [hrun] at h
                    simp only [except_bind_ok] at h
                    exact ih.2 obj rest u h
                | vUndef => exact ih.2 obj rest u h
                | vNull => exact ih.2 obj rest u h
                | vBool b => simp at h
                | vNum n => simp at h
                | vStr s => simp at h
                | vObj fs => simp at h
                | vFun f => simp at h

theorem frame_cast : ∀ fuel : Nat,
    (∀ obj schema u r, castObject fuel obj schema = .ok (u, r) →
      defaultArrays fuel obj schema = .ok u) ∧
    (∀ obj acc entries u r, castFields fuel obj acc entries = .ok (u, r) →
      defaultFields fuel obj entries = .ok u) := by
  intro fuel
  induction fuel with
  | zero =>
    constructor
    · intro obj schema u r h
      rw [castObject] at h
      cases h
    · intro obj acc entries u r h
      cases entries with
      | nil =>
        rw [castFields] at h
        simp only [Except.ok.injEq, Prod.mk.injEq] at h
        rw [defaultFields, h.1]
      | cons e rest =>
        rw [castFields] at h
        cases h
  | succ fuel ih =>
    constructor
    · intro obj schema u r h
      rw [castObject] at h
      rw [defaultArrays]
      exact ih.2 obj (vObj []) (jsOwnEnumerableEntries schema) u r h
    · intro obj acc entries u r h
      cases entries with
      | nil =>
        rw [castFields] at h
        simp only [Except.ok.injEq, Prod.mk.injEq] at h
        rw [defaultFields, h.1]
      | cons e rest =>
        obtain ⟨key, fp⟩ := e
        rw [castFields] at h
        rw [defaultFields]
        cases hT : getMember fp "_type" with
        | error e2 => rw [hT] at h; simp at h
        | ok t =>
          rw [hT] at h
          simp only [except_bind_ok] at h ⊢
          by_cases hA : isTag t "array"
          · rw [if_pos hA] at h ⊢
            cases hcur : getMember obj key with
            | error e2 => rw [hcur] at h; simp at h
            | ok cur =>
              rw [hcur] at h
              simp only [except_bind_ok] at h ⊢
              cases hdf : defaultIfFalsy obj key cur with
              | error e2 => rw [hdf] at h; simp at h
              | ok obj1 =>
                rw [hdf] at h
                simp only [except_bind_ok] at h ⊢
                cases hcur2 : getMember obj1 key with
                | error e2 => rw [hcur2] at h; simp at h
                | ok cur2 =>
                  rw [hcur2] at h
                  simp only [except_bind_ok] at h ⊢
                  cases cur2 with
                  | vArr items =>
                    simp only at h ⊢
                    cases hes : getMember fp "_schema" with
                    | error e2 => rw [hes] at h; simp at h
                    | ok es =>
                      rw [hes] at h
                      simp only [except_bind_ok] at h ⊢
                      cases hmap : mapE (fun it => castObject fuel it es)
                          items with
                      | error e2 => rw [hmap] at h; simp at h
                      | ok pairs =>
                        rw [hmap] at h
                        simp only [except_bind_ok] at h
                        rw [mapE_pairs (fun x _ p hp => ih.1 x es p.1 p.2
                          (by rw [hp])) hmap]
                        simp only [except_bind_ok]
                        cases hwb : writeBack obj1 key
                            (vArr (pairs.map Prod.fst)) with
                        | error e2 => rw [hwb] at h; simp at h
                        | ok obj3 =>
                          rw [hwb] at h
                          simp only [except_bind_ok] at h
                          cases hsm : setMember acc key
                              (vArr (pairs.map Prod.snd)) with
                          | error e2 => rw [hsm] at h; simp at h
                          | ok acc2 =>
                            rw [hsm] at h
                            simp only [except_bind_ok] at h
                            exact ih.2 obj3 acc2 rest u r h
                  | vUndef => simp at h
                  | vNull => simp at h
                  | vBool b => simp at h
                  | vNum n => simp at h
                  | vStr s => simp at h
                  | vObj fs => simp at h
                  | vFun f => simp at h
          · rw [if_neg hA] at h ⊢
            by_cases hO : isTag t "object"
            · rw [if_pos hO] at h ⊢
              cases hch : getMember obj key with
              | error e2 => rw [hch] at h; simp at h
              | ok child =>
                rw [hch] at h
                simp only [except_bind_ok] at h ⊢
                cases hco : castObject fuel child fp with
                | error e2 => rw [hco] at h; simp at h
                | ok p =>
                  rw [hco] at h
                  simp only [except_bind_ok] at h
                  rw [ih.1 child fp p.1 p.2 (by rw [hco])]
                  simp only [except_bind_ok]
                  cases hwb : writeBack obj key p.1 with
                  | error e2 => rw [hwb] at h; simp at h
                  | ok obj1 =>
                    rw [hwb] at h
                    simp only [except_bind_ok] at h
                    cases hsm : setMember acc key p.2 with
                    | error e2 => rw [hsm] at h; simp at h
                    | ok acc2 =>
                      rw [hsm] at h
                      simp only [except_bind_ok] at h
                      exact ih.2 obj1 acc2 rest u r h
            · rw [if_neg hO] at h ⊢
              cases hv : getMember obj key with
              | error e2 => rw [hv] at h; simp at h
              | ok v =>
                rw [hv] at h
                simp only [except_bind_ok] at h
                cases hsm : setMember acc key v with
                | error e2 => rw [hsm] at h; simp at h
                | ok acc2 =>
                  rw [hsm] at h
                  simp only [except_bind_ok] at h
                  exact ih.2 obj acc2 rest u r h

/-- C10.  The only in-place effect of `validate` and `cast` on the caller's
record is the array defaulting: whenever either walker succeeds, the mutated
input it leaves behind is exactly `defaultArrays` of the original — the walk
that assigns `[]` to absent/falsy array-typed fields (recursing through
array elements and `_type:"object"` nodes exactly where the source walkers
recurse) and touches nothing else. -/
theorem C10_array_default_frame :
    (∀ (fuel : Nat) (obj schema u : Value),
      validateObject fuel obj schema = .ok u →
      defaultArrays fuel obj schema = .ok u) ∧
    (∀ (fuel : Nat) (obj schema u r : Value),
      castObject fuel obj schema = .ok (u, r) →
      defaultArrays fuel obj schema = .ok u) :=
  ⟨fun fuel => (frame_validate fuel).1,
   fun fuel obj schema u r => (frame_cast fuel).1 obj schema u r⟩

/-- C10 witness: validating `{}` against the tags schema mutates the input
to `{tags: []}`, and `defaultArrays` produces exactly that mutation. -/
theorem C10_witness :
    defaultArrays 16 (vObj []) schemaTags = .ok (vObj [("tags", vArr [])]) :=
  C10_array_default_frame.1 16 (vObj []) schemaTags (vObj [("tags", vArr [])])
    rfl

end Leafstore
